import Mathlib

/-
  Verification development for the willknow-go conversational-agent core.

  The Go sources are shallowly embedded as Lean definitions:
  * `GoVal` models the `interface{}` values produced by `encoding/json`
    unmarshalling (Go maps are modelled as association lists; Go map
    iteration order is unspecified, here it is the stored field order;
    numbers are modelled abstractly as integers).
  * `openapi` (spec parsing / tool synthesis, `extractSpec`, `extractTool`,
    `generateOperationID`) and `openapi/executor.go` (`ExecuteTool`) are
    embedded as pure functions; the HTTP round trip itself is a parameter.
  * the chat-completion provider adapter (`convertToOpenAIFormat`,
    `convertFromOpenAIFormat`) is embedded with the stdlib JSON codec
    (`json.Marshal` / `json.Unmarshal`) passed in as function parameters.
  * the orchestration loop (`processChat` in server.go) is embedded as a
    fuel-indexed recursion, with the provider and the tool registry passed
    in as functions.
-/

set_option maxHeartbeats 1000000

namespace Willknow

/-! ## Go dynamic values (`interface{}` after `encoding/json` unmarshalling) -/

/-- A Go `interface{}` value as produced by `encoding/json`.  Objects are
association lists (Go `map[string]interface{}`); numbers are modelled as
integers. -/
inductive GoVal where
  | str (s : String)
  | num (n : Int)
  | bool (b : Bool)
  | null
  | arr (xs : List GoVal)
  | obj (fields : List (String × GoVal))

/-- Lookup of a key in a Go map modelled as an association list. -/
def lookupField : List (String × GoVal) → String → Option GoVal
  | [], _ => none
  | (k, v) :: rest, key => if k = key then some v else lookupField rest key

/-- Go helper `getString(m, key)`: `m[key].(string)` with `""` default. -/
def getString (m : List (String × GoVal)) (key : String) : String :=
  match lookupField m key with
  | some (GoVal.str s) => s
  | _ => ""

/-- Go helper `getBool(m, key)`: `m[key].(bool)` with `false` default. -/
def getBool (m : List (String × GoVal)) (key : String) : Bool :=
  match lookupField m key with
  | some (GoVal.bool b) => b
  | _ => false

/-- Go's `v.(map[string]interface{})` type assertion (the `(value, ok)` form). -/
def goObj : GoVal → Option (List (String × GoVal))
  | GoVal.obj m => some m
  | _ => none

/-- Coerce an optional Go value to a map, mirroring `v.(map[string]interface{})`. -/
def asObj : Option GoVal → Option (List (String × GoVal))
  | some v => goObj v
  | none => none

/-- Go helper `getSchemaType(schema)`: `"string"` for a nil schema or a
missing/empty `type` field. -/
def getSchemaType (schema : Option (List (String × GoVal))) : String :=
  match schema with
  | none => "string"
  | some m =>
    let t := getString m "type"
    if t = "" then "string" else t

/-- Go helper `getStringSlice(m, key)`: the string entries of `m[key].([]interface{})`. -/
def getStringSlice (m : List (String × GoVal)) (key : String) : List String :=
  match lookupField m key with
  | some (GoVal.arr items) =>
    items.foldl (fun acc item =>
      match item with
      | GoVal.str s => acc ++ [s]
      | _ => acc) []
  | _ => []

/-! ## Go string helpers (on `List Char`)

`strings.Trim`, `strings.Split`, `strings.TrimRight` as used by
`generateOperationID` and the executor.  Go operates on bytes; the sources
only ever apply these to ASCII data, modelled here at character level. -/

/-- `strings.TrimLeft`: drop leading characters contained in `cut`. -/
def trimLeftSet (cut : List Char) : List Char → List Char
  | [] => []
  | x :: xs => if cut.contains x then trimLeftSet cut xs else x :: xs

/-- `strings.TrimRight`: drop trailing characters contained in `cut`. -/
def trimRightSet (cut : List Char) : List Char → List Char
  | [] => []
  | x :: xs =>
    match trimRightSet cut xs with
    | [] => if cut.contains x then [] else [x]
    | r => x :: r

/-- `strings.Trim`: drop characters in `cut` from both ends. -/
def goTrim (cut : List Char) (s : List Char) : List Char :=
  trimLeftSet cut (trimRightSet cut s)

/-- `strings.Split(s, sep)` for a one-character separator. -/
def gSplit (c : Char) : List Char → List (List Char)
  | [] => [[]]
  | x :: xs =>
    let r := gSplit c xs
    if x = c then [] :: r else (x :: r.headD []) :: r.tail

/-- `strings.ToLower` (ASCII). -/
def strToLower (s : String) : String := String.mk (s.data.map Char.toLower)

/-- `strings.ToUpper` (ASCII). -/
def strToUpper (s : String) : String := String.mk (s.data.map Char.toUpper)

/-- One path segment's contribution to a generated operation id:
`strings.Trim(part, "\x7b\x7d")`, then, if non-empty, the first character
upper-cased (`strings.ToUpper(part[:1]) + part[1:]`). -/
def prPart (p : List Char) : List Char :=
  match goTrim ['{', '}'] p with
  | [] => []
  | y :: ys => Char.toUpper y :: ys

/-- Concatenation of the rendered path segments. -/
def renderParts (ps : List (List Char)) : List Char :=
  (ps.map prPart).flatten

/-- `generateOperationID(method, path)` from the OpenAPI synthesiser:
`strings.ToLower(method)` followed by each segment of
`strings.Split(strings.Trim(path, "/"), "/")`, brace-trimmed and
first-letter-capitalised when non-empty. -/
def generateOperationID (method path : String) : String :=
  String.mk (strToLower method |>.data) ++
    String.mk (renderParts (gSplit '/' (goTrim ['/'] path.data)))

/-- The naming rule as the spec words it: the method lower-cased,
concatenated with each non-empty path segment of the path, with
path-parameter braces stripped and the segment's first letter capitalised.
(Segments that are empty, before or after brace-stripping, contribute
nothing to the concatenation.) -/
def specToolSlug (method path : String) : String :=
  String.mk (strToLower method |>.data) ++
    String.mk (renderParts ((gSplit '/' path.data).filter (fun seg => !seg.isEmpty)))

/-! ## OpenAPI tool synthesis (`part_004`, package `openapi`) -/

/-- `MaxTools`: the hard cap on synthesised API tools. -/
def MaxTools : Nat := 50

/-- A path or query parameter of a synthesised tool. -/
structure Parameter where
  Name : String
  In : String
  Description : String
  Required : Bool
  ptype : String
deriving DecidableEq

/-- A single JSON body property. -/
structure PropertySchema where
  ptype : String
  Description : String
deriving DecidableEq

/-- The JSON request body of a synthesised tool.  The Go `Required` field is
a `map[string]bool`; it is modelled as the list of names mapped to `true`. -/
structure RequestBody where
  Description : String
  Required : List String
  Properties : List (String × PropertySchema)
deriving DecidableEq

/-- A synthesised API tool (`APITool`). -/
structure APITool where
  Name : String
  Summary : String
  Description : String
  Method : String
  Path : String
  Parameters : List Parameter
  RequestBody : Option RequestBody

/-- The parsed OpenAPI specification (`ParsedSpec`). -/
structure ParsedSpec where
  Title : String
  Description : String
  ServerURL : String
  Tools : List APITool

/-- `extractRequestBody(rb)`: description, required-name set, and the flat
top-level property map of the `application/json` schema. -/
def extractRequestBody (rb : List (String × GoVal)) : RequestBody :=
  let base : RequestBody := ⟨getString rb "description", [], []⟩
  match lookupField rb "content" with
  | some (GoVal.obj content) =>
    match lookupField content "application/json" with
    | some (GoVal.obj jsonContent) =>
      match lookupField jsonContent "schema" with
      | some (GoVal.obj schema) =>
        let req := getStringSlice schema "required"
        let props :=
          match lookupField schema "properties" with
          | some (GoVal.obj ps) =>
            ps.foldl (fun acc entry =>
              match entry.2 with
              | GoVal.obj prop =>
                acc ++ [(entry.1,
                  PropertySchema.mk (getSchemaType (some prop)) (getString prop "description"))]
              | _ => acc) []
          | _ => []
        ⟨base.Description, req, props⟩
      | _ => base
    | _ => base
  | _ => base

/-- One raw `parameters` entry of an operation, as kept (or dropped) by
`extractTool`: only `path`/`query` roles survive, and a `path` parameter is
required regardless of its declared flag. -/
def extractParamEntry (p : GoVal) : Option Parameter :=
  match p with
  | GoVal.obj pm =>
    let pIn := getString pm "in"
    if pIn ≠ "path" ∧ pIn ≠ "query" then none
    else
      some ⟨getString pm "name", pIn, getString pm "description",
        (getBool pm "required" || (pIn == "path")),
        getSchemaType (asObj (lookupField pm "schema"))⟩
  | _ => none

/-- The parameter-keeping rule as the spec words it: only `path` and `query`
parameters are kept (header/cookie parameters are dropped); a `path`
parameter is always treated as required regardless of its declared flag,
a `query` parameter keeps its declared flag. -/
def specKeepParam (p : GoVal) : Option Parameter :=
  match p with
  | GoVal.obj pm =>
    let role := getString pm "in"
    if role = "path" then
      some ⟨getString pm "name", role, getString pm "description", true,
        getSchemaType (asObj (lookupField pm "schema"))⟩
    else if role = "query" then
      some ⟨getString pm "name", role, getString pm "description",
        getBool pm "required",
        getSchemaType (asObj (lookupField pm "schema"))⟩
    else none
  | _ => none

/-- The raw `parameters` array of an operation object (empty when absent or
not an array). -/
def rawParamList (op : List (String × GoVal)) : List GoVal :=
  match lookupField op "parameters" with
  | some (GoVal.arr ps) => ps
  | _ => []

/-- One iteration of `extractTool`'s parameter loop: append the kept
parameter, or skip the entry (`continue`). -/
def keepParamStep (acc : List Parameter) (p : GoVal) : List Parameter :=
  match extractParamEntry p with
  | some q => acc ++ [q]
  | none => acc

/-- `extractTool(path, method, op)`: name (operationId or generated slug),
description chain, kept parameters, and optional JSON request body.  The
parameter loop is the Go `for ... continue` loop, translated as a fold. -/
def extractTool (path method : String) (op : List (String × GoVal)) : APITool :=
  let name0 := getString op "operationId"
  let name := if name0 = "" then generateOperationID method path else name0
  let summary := getString op "summary"
  let desc0 := getString op "description"
  let desc1 := if desc0 = "" then summary else desc0
  let desc := if desc1 = "" then method ++ " " ++ path else desc1
  let params := (rawParamList op).foldl keepParamStep []
  let rbody :=
    match lookupField op "requestBody" with
    | some (GoVal.obj rbm) => some (extractRequestBody rbm)
    | _ => none
  ⟨name, summary, desc, method, path, params, rbody⟩

/-- `isHTTPMethod`. -/
def isHTTPMethod (m : String) : Bool :=
  m == "GET" || m == "POST" || m == "PUT" || m == "PATCH" || m == "DELETE"

/-- One `(method, operation)` entry of a path item in `extractSpec`'s inner
loop: count every valid-method endpoint, then (if the operation is a map and
the cap is not yet reached) append the extracted tool. -/
def specStep (path : String) (st : List APITool × Nat) (entry : String × GoVal) :
    List APITool × Nat :=
  let method := strToUpper entry.1
  if ¬ isHTTPMethod method then st
  else
    match goObj entry.2 with
    | some op =>
      if st.1.length ≥ MaxTools then (st.1, st.2 + 1)
      else (st.1 ++ [extractTool path method op], st.2 + 1)
    | none => (st.1, st.2 + 1)

/-- One `(path, pathItem)` entry of `extractSpec`'s outer loop. -/
def specFold (st : List APITool × Nat) (pentry : String × GoVal) :
    List APITool × Nat :=
  match goObj pentry.2 with
  | some methods => methods.foldl (specStep pentry.1) st
  | none => st

/-- `extractSpec(raw)`: info, first server URL, the capped tool list, and the
warning (modelled as the pair of counts it cites, `none` when not emitted).
The Go function's `error` result is always `nil`; the `Except` mirrors the
signature. -/
def specTitle (raw : List (String × GoVal)) : String :=
  match asObj (lookupField raw "info") with
  | some info => getString info "title"
  | none => ""

def specDescription (raw : List (String × GoVal)) : String :=
  match asObj (lookupField raw "info") with
  | some info => getString info "description"
  | none => ""

def specServerURL (raw : List (String × GoVal)) : String :=
  match lookupField raw "servers" with
  | some (GoVal.arr (s₀ :: _)) =>
    match goObj s₀ with
    | some sm => getString sm "url"
    | none => ""
  | _ => ""

def extractSpec (raw : List (String × GoVal)) :
    Except String (ParsedSpec × Option (Nat × Nat)) :=
  match asObj (lookupField raw "paths") with
  | some paths =>
    let st := paths.foldl specFold ([], 0)
    let warn := if st.2 > MaxTools then some (st.2, MaxTools) else none
    Except.ok (⟨specTitle raw, specDescription raw, specServerURL raw, st.1⟩, warn)
  | none =>
    Except.ok (⟨specTitle raw, specDescription raw, specServerURL raw, []⟩, none)

/-- Collection step for the valid-method endpoint entries of one path item. -/
def methodEntryStep (p : String) (a : List (String × String × GoVal))
    (entry : String × GoVal) : List (String × String × GoVal) :=
  let M := strToUpper entry.1
  if isHTTPMethod M then a ++ [(p, M, entry.2)] else a

/-- The valid-method `(path, METHOD, operation)` entries of one path item. -/
def innerEntries (p : String) (methods : List (String × GoVal)) :
    List (String × String × GoVal) :=
  methods.foldl (methodEntryStep p) []

/-- The endpoint entries of one `(path, pathItem)` pair (none when the path
item is not a map). -/
def pathItemEntries (pentry : String × GoVal) : List (String × String × GoVal) :=
  match goObj pentry.2 with
  | some methods => innerEntries pentry.1 methods
  | none => []

/-- The flattened list of `(path, METHOD, operation)` endpoint entries with a
valid HTTP method, in iteration order — exactly the entries that increment
`totalEndpoints`. -/
def endpointEntries (raw : List (String × GoVal)) : List (String × String × GoVal) :=
  match asObj (lookupField raw "paths") with
  | some paths => (paths.map pathItemEntries).flatten
  | none => []

/-- Whether an endpoint entry's operation is a JSON object (a valid
operation that `extractSpec` can synthesise a tool from). -/
def isObjOp (e : String × String × GoVal) : Bool :=
  (goObj e.2.2).isSome

/-- The number of valid operations of a raw spec. -/
def countValidOps (raw : List (String × GoVal)) : Nat :=
  (endpointEntries raw).countP isObjOp

/-- The capped tool-collection step, over the flattened endpoint entries:
count the endpoint, then append the extracted tool when the operation is a
map and the cap has not been reached. -/
def flatStep (st : List APITool × Nat) (e : String × String × GoVal) :
    List APITool × Nat :=
  match goObj e.2.2 with
  | some op =>
    if st.1.length ≥ MaxTools then (st.1, st.2 + 1)
    else (st.1 ++ [extractTool e.1 e.2.1 op], st.2 + 1)
  | none => (st.1, st.2 + 1)

/-! ## Canonical message model (package `provider` / `claude`)

Go's `ContentBlock` is a single struct with a `Type` tag and a field per
variant; all code switches on `Type`.  The struct is embedded as-is (the Go
field `Type` is named `ctype` here, `Input` is the parsed argument map). -/

/-- `provider.ContentBlock`. -/
structure ContentBlock where
  ctype : String
  text : String
  id : String
  name : String
  input : List (String × GoVal)
  toolUseID : String
  content : String

/-- A text block (all other fields at their Go zero values). -/
def mkText (t : String) : ContentBlock := ⟨"text", t, "", "", [], "", ""⟩

/-- A `tool_use` block. -/
def mkToolUse (id name : String) (input : List (String × GoVal)) : ContentBlock :=
  ⟨"tool_use", "", id, name, input, "", ""⟩

/-- A `tool_result` block. -/
def mkToolResult (toolUseID result : String) : ContentBlock :=
  ⟨"tool_result", "", "", "", [], toolUseID, result⟩

/-- `provider.Message`. -/
structure Message where
  role : String
  content : List ContentBlock

/-- `provider.Usage`. -/
structure Usage where
  inputTokens : Int
  outputTokens : Int

/-- `provider.Response`. -/
structure Response where
  ID : String
  rtype : String
  role : String
  Content : List ContentBlock
  Model : String
  StopReason : String
  usage : Usage

/-! ## Orchestration loop (`processChat` in server.go)

The provider (`a.provider.SendMessage`) and the tool registry
(`a.toolRegistry.Execute`) are passed in as functions; the WebSocket text
writes and audit-log calls have no effect on the message history and are
not modelled.  The session history is the explicit `List Message` state. -/

/-- One iteration of the `for _, block := range response.Content` loop:
state is `(session messages, pending assistantContent, hasToolUse)`.
For a `tool_use` block the tool is executed (an error is folded into the
result as `"Error: ..."`), and — exactly as in the source — the pending
assistant message and a one-result user message are appended immediately,
inside the block loop. -/
def pbStep (exec : String → List (String × GoVal) → Except String String)
    (st : List Message × List ContentBlock × Bool) (b : ContentBlock) :
    List Message × List ContentBlock × Bool :=
  if b.ctype = "text" then
    (st.1, st.2.1 ++ [b], st.2.2)
  else if b.ctype = "tool_use" then
    let result :=
      match exec b.name b.input with
      | Except.ok r => r
      | Except.error e => "Error: " ++ e
    (st.1 ++ [⟨"assistant", st.2.1 ++ [b]⟩, ⟨"user", [mkToolResult b.id result]⟩],
      st.2.1 ++ [b], true)
  else st

/-- The whole block loop over one provider response's content. -/
def processBlocks (exec : String → List (String × GoVal) → Except String String)
    (msgs : List Message) (blocks : List ContentBlock) :
    List Message × List ContentBlock × Bool :=
  blocks.foldl (pbStep exec) (msgs, [], false)

/-- The turn loop of `processChat`, fuel-indexed by the remaining turn
budget.  Returns the final history, the number of provider calls made, and
the error returned to the caller (`none` both on natural termination and on
budget exhaustion). -/
def processChatLoop (provider : List Message → Except String Response)
    (exec : String → List (String × GoVal) → Except String String) :
    Nat → List Message → Nat → List Message × Nat × Option String
  | 0, msgs, calls => (msgs, calls, none)
  | fuel + 1, msgs, calls =>
    match provider msgs with
    | Except.error e => (msgs, calls + 1, some e)
    | Except.ok resp =>
      let st := processBlocks exec msgs resp.Content
      if st.2.2 then processChatLoop provider exec fuel st.1 (calls + 1)
      else (st.1 ++ [⟨"assistant", st.2.1⟩], calls + 1, none)

/-- `processChat`: the loop with `maxTurns = 10`. -/
def processChat (provider : List Message → Except String Response)
    (exec : String → List (String × GoVal) → Except String String)
    (msgs : List Message) : List Message × Nat × Option String :=
  processChatLoop provider exec 10 msgs 0

/-! ## Chat-completion adapter (`part_007`, `OpenAICompatibleProvider`)

The wire maps are embedded as structures with `Option`-valued fields for
optional keys.  `json.Marshal` of an argument map (`mustMarshalJSON`) and
`json.Unmarshal` of an arguments string are stdlib calls, passed in as the
`marshal` / `parse` parameters. -/

/-- The `function` object of a wire tool call. -/
structure OAIFunc where
  name : Option String
  arguments : Option String

/-- One entry of a wire `tool_calls` array. -/
structure OAIToolCall where
  id : Option String
  ttype : Option String
  function : Option OAIFunc

/-- A chat-completion wire message (outbound request message, and the
`choices[0].message` of a response). -/
structure OAIMessage where
  role : String
  content : Option String
  tool_calls : Option (List OAIToolCall)
  tool_call_id : Option String

/-- One entry of a response's `choices` array. -/
structure OAIChoice where
  message : Option OAIMessage
  finish_reason : Option String

/-- A response's `usage` object. -/
structure OAIUsage where
  prompt_tokens : Option Int
  completion_tokens : Option Int

/-- A chat-completion response body. -/
structure OAIResponse where
  id : Option String
  model : Option String
  choices : List OAIChoice
  usage : Option OAIUsage

/-- The per-block accumulation loop of `convertToOpenAIFormat`: state is
`(textContent, toolCalls, toolCallID)`.  `text` appends to the text,
`tool_use` appends a wire tool call with JSON-encoded arguments,
`tool_result` overwrites the text with the result content and records the
invocation id. -/
def gatherStep (marshal : List (String × GoVal) → String)
    (st : String × List OAIToolCall × String) (b : ContentBlock) :
    String × List OAIToolCall × String :=
  if b.ctype = "text" then
    (st.1 ++ b.text, st.2.1, st.2.2)
  else if b.ctype = "tool_use" then
    (st.1,
      st.2.1 ++ [⟨some b.id, some "function", some ⟨some b.name, some (marshal b.input)⟩⟩],
      st.2.2)
  else if b.ctype = "tool_result" then
    (b.content, st.2.1, b.toolUseID)
  else st

/-- The per-message body of `convertToOpenAIFormat`: at most one wire
message per canonical message (`none` when nothing is emitted). -/
def convertMsg (marshal : List (String × GoVal) → String) (msg : Message) :
    Option OAIMessage :=
  let st := msg.content.foldl (gatherStep marshal) ("", [], "")
  if msg.role = "assistant" ∧ st.2.1.isEmpty = false then
    some ⟨"assistant", if st.1 ≠ "" then some st.1 else none, some st.2.1, none⟩
  else if msg.role = "user" ∧ st.2.2 ≠ "" then
    some ⟨"tool", some st.1, none, some st.2.2⟩
  else if st.1 ≠ "" then
    some ⟨msg.role, some st.1, none, none⟩
  else none

/-- `convertToOpenAIFormat(messages)`. -/
def convertToOpenAIFormat (marshal : List (String × GoVal) → String)
    (msgs : List Message) : List OAIMessage :=
  msgs.filterMap (convertMsg marshal)

/-- One `tool_calls` entry of `convertFromOpenAIFormat`: skipped when the
`function` field is missing; the JSON-string arguments are parsed with the
stdlib (`parse`), and anything but a successfully parsed object leaves the
argument map empty (the `json.Unmarshal` error is discarded). -/
def convertToolCall (parse : String → Option GoVal) (tc : OAIToolCall) :
    Option ContentBlock :=
  match tc.function with
  | none => none
  | some fn =>
    let input : List (String × GoVal) :=
      match fn.arguments with
      | some s =>
        match parse s with
        | some (GoVal.obj m) => m
        | _ => []
      | none => []
    some (mkToolUse (tc.id.getD "") (fn.name.getD "") input)

/-- `convertFromOpenAIFormat(openAIResp)`: the first choice's message
content becomes a text block when non-empty, each tool call becomes a
`tool_use` block, and the finish reason is mapped
(`tool_calls ↦ tool_use`, `stop ↦ end_turn`, otherwise passed through).
The Go function's `error` result is always `nil`. -/
def convertFromOpenAIFormat (parse : String → Option GoVal)
    (resp : OAIResponse) : Except String Response :=
  let cs :=
    match resp.choices.head? with
    | some ch =>
      let blocks :=
        match ch.message with
        | some m =>
          (match m.content with
           | some c => if c ≠ "" then [mkText c] else []
           | none => []) ++
          (m.tool_calls.getD []).filterMap (convertToolCall parse)
        | none => []
      let stop :=
        match ch.finish_reason with
        | some "tool_calls" => "tool_use"
        | some "stop" => "end_turn"
        | some other => other
        | none => ""
      (blocks, stop)
    | none => ([], "")
  let usage :=
    match resp.usage with
    | some u => Usage.mk (u.prompt_tokens.getD 0) (u.completion_tokens.getD 0)
    | none => ⟨0, 0⟩
  Except.ok ⟨resp.id.getD "", "message", "assistant", cs.1, resp.model.getD "", cs.2, usage⟩

/-- A mock upstream that echoes an outbound wire message back as the first
choice of a chat-completion response, with finish reason `tool_calls`. -/
def mockEcho (m : OAIMessage) : OAIResponse :=
  ⟨none, none, [⟨some m, some "tool_calls"⟩], none⟩

/-- The accumulated text of a block list (text blocks only, in order). -/
def textOfBlocks (blocks : List ContentBlock) : String :=
  blocks.foldl (fun a b => if b.ctype = "text" then a ++ b.text else a) ""

/-- The `(id, name, arguments)` triples of the `tool_use` blocks of a block
list, in order. -/
def toolUsesOf (blocks : List ContentBlock) : List (String × String × List (String × GoVal)) :=
  blocks.filterMap (fun b =>
    if b.ctype = "tool_use" then some (b.id, b.name, b.input) else none)

/-! ## API tool execution (`openapi/executor.go`, `ExecuteTool`)

The request-building half (argument classification, URL assembly, headers)
is pure and embedded as `buildToolRequest`; the HTTP call is a parameter;
the response-formatting half is `formatToolResult` (with the stdlib
pretty-printing `Unmarshal`/`MarshalIndent` step passed in as `pretty`). -/

/-- `strings.ReplaceAll(s, pat, rep)` (left-to-right, non-overlapping; the
sources only use non-empty patterns of the form `"\x7b" + name + "\x7d"`). -/
def replaceAll (pat rep : List Char) (s : List Char) : List Char :=
  match s with
  | [] => []
  | x :: xs =>
    if pat ≠ [] ∧ pat.isPrefixOf (x :: xs) then
      rep ++ replaceAll pat rep (xs.drop (pat.length - 1))
    else
      x :: replaceAll pat rep xs
termination_by s.length
decreasing_by
  · simp only [List.length_drop, List.length_cons]
    omega
  · simp only [List.length_cons]
    omega

mutual

/-- `fmt.Sprintf("%v", value)` on a Go JSON value. -/
def goFormatValue : GoVal → String
  | GoVal.str s => s
  | GoVal.num n => toString n
  | GoVal.bool b => if b then "true" else "false"
  | GoVal.null => "<nil>"
  | GoVal.arr xs => "[" ++ String.intercalate " " (goFormatValueList xs) ++ "]"
  | GoVal.obj fs => "map[" ++ String.intercalate " " (goFormatValueFields fs) ++ "]"

/-- Formats of the elements of a Go slice. -/
def goFormatValueList : List GoVal → List String
  | [] => []
  | v :: vs => goFormatValue v :: goFormatValueList vs

/-- Formats of the entries of a Go map. -/
def goFormatValueFields : List (String × GoVal) → List String
  | [] => []
  | (k, v) :: vs => (k ++ ":" ++ goFormatValue v) :: goFormatValueFields vs

end

/-- The declared `path`- and `query`-role parameter names of a tool
(`pathParamNames` / `queryParamNames` in `ExecuteTool`; Go `map[string]bool`
sets, modelled as name lists). -/
def paramNameSets (tool : APITool) : List String × List String :=
  tool.Parameters.foldl (fun st p =>
    if p.In = "path" then (st.1 ++ [p.Name], st.2)
    else if p.In = "query" then (st.1, st.2 ++ [p.Name])
    else st) ([], [])

/-- One argument of the classification loop: a declared path-parameter name
is substituted into the path template, a declared query-parameter name is
appended to the query parameters, anything else goes into the body
parameters only if the tool declares a request body — otherwise it is
dropped.  State is `(path, queryParams, bodyParams)`. -/
def classifyStep (tool : APITool) (pn qn : List String)
    (st : List Char × List (String × GoVal) × List (String × GoVal))
    (arg : String × GoVal) :
    List Char × List (String × GoVal) × List (String × GoVal) :=
  if pn.contains arg.1 then
    (replaceAll ('{' :: arg.1.data ++ ['}']) (goFormatValue arg.2).data st.1,
      st.2.1, st.2.2)
  else if qn.contains arg.1 then
    (st.1, st.2.1 ++ [arg], st.2.2)
  else if tool.RequestBody.isSome then
    (st.1, st.2.1, st.2.2 ++ [arg])
  else st

/-- The outgoing HTTP request built by `ExecuteTool` (method, full URL,
body parameter map and the headers set on the request). -/
structure BuiltRequest where
  method : String
  url : String
  bodyParams : List (String × GoVal)
  contentTypeJSON : Bool
  accept : String
  authorization : Option String

/-- The request-building half of `ExecuteTool` (executor.go lines 13–75). -/
def buildToolRequest (tool : APITool) (params : List (String × GoVal))
    (baseURL authHeader : String) : BuiltRequest :=
  let ns := paramNameSets tool
  let st := params.foldl (classifyStep tool ns.1 ns.2) (tool.Path.data, [], [])
  let url := String.mk (trimRightSet ['/'] baseURL.data) ++ String.mk st.1 ++
    (if st.2.1.isEmpty = false then
      "?" ++ String.intercalate "&"
        (st.2.1.map (fun kv => kv.1 ++ "=" ++ goFormatValue kv.2))
    else "")
  ⟨tool.Method, url, st.2.2, !st.2.2.isEmpty,
    "application/json", if authHeader ≠ "" then some authHeader else none⟩

/-- The response-formatting half of `ExecuteTool` (executor.go lines
92–106): a non-2xx status yields a result string naming the status and the
raw body with a `nil` error; a 2xx body is pretty-printed when it parses as
JSON (`pretty` is the stdlib `Unmarshal` + `MarshalIndent` step). -/
def formatToolResult (pretty : String → Option String) (status : Nat)
    (body : String) : Except String String :=
  if 200 ≤ status ∧ status < 300 then
    Except.ok (match pretty body with
      | some p => p
      | none => body)
  else
    Except.ok ("API call failed with status " ++ toString status ++ ": " ++ body)

/-- `ExecuteTool` end to end, with the HTTP round trip passed in as
`doReq` (returning the response status and body, or a transport error). -/
def executeTool (pretty : String → Option String)
    (doReq : BuiltRequest → Except String (Nat × String))
    (tool : APITool) (params : List (String × GoVal))
    (baseURL authHeader : String) : Except String String :=
  let req := buildToolRequest tool params baseURL authHeader
  match doReq req with
  | Except.error e => Except.error ("API call failed: " ++ e)
  | Except.ok sb => formatToolResult pretty sb.1 sb.2

/-! ## Lemmas on `strings.Split` / `strings.Trim`

Supporting the equivalence between `generateOperationID` (which trims the
path before splitting) and the spec's description of the naming rule. -/

theorem gSplit_ne_nil (c : Char) (s : List Char) : gSplit c s ≠ [] := by
  cases s with
  | nil => simp [gSplit]
  | cons x xs =>
    simp only [gSplit]
    split <;> simp

theorem renderParts_append (a b : List (List Char)) :
    renderParts (a ++ b) = renderParts a ++ renderParts b := by
  simp [renderParts]

theorem prPart_nil : prPart [] = [] := rfl

theorem gSplit_cons (c x : Char) (xs : List Char) :
    gSplit c (x :: xs) =
      if x = c then [] :: gSplit c xs
      else (x :: (gSplit c xs).headD []) :: (gSplit c xs).tail := rfl

theorem gSplit_cons_sep (c : Char) (s : List Char) :
    gSplit c (c :: s) = [] :: gSplit c s := by
  rw [gSplit_cons, if_pos rfl]

theorem gSplit_append_sep (c : Char) (s : List Char) :
    gSplit c (s ++ [c]) = gSplit c s ++ [[]] := by
  induction s with
  | nil => simp [gSplit, gSplit_cons]
  | cons x xs ih =>
    obtain ⟨p, ps, hps⟩ := List.exists_cons_of_ne_nil (gSplit_ne_nil c xs)
    by_cases hx : x = c
    · subst hx
      rw [List.cons_append, gSplit_cons_sep, ih, gSplit_cons_sep, List.cons_append]
    · rw [List.cons_append, gSplit_cons, if_neg hx, ih, hps,
        gSplit_cons, if_neg hx, hps]
      simp

theorem gSplit_replicate_append (c : Char) (k : Nat) (t : List Char) :
    gSplit c (List.replicate k c ++ t) = List.replicate k [] ++ gSplit c t := by
  induction k with
  | zero => simp
  | succ n ih =>
    simp only [List.replicate_succ, List.cons_append, gSplit_cons_sep, ih]

theorem renderParts_replicate_nil (k : Nat) :
    renderParts (List.replicate k ([] : List Char)) = [] := by
  induction k with
  | zero => rfl
  | succ n ih =>
    have h : renderParts (List.replicate (n + 1) ([] : List Char)) =
        renderParts (List.replicate n ([] : List Char)) := by
      simp [renderParts, List.replicate_succ, prPart_nil]
    rw [h, ih]

theorem renderParts_gSplit_append_replicate (c : Char) (k : Nat) (s : List Char) :
    renderParts (gSplit c (s ++ List.replicate k c)) = renderParts (gSplit c s) := by
  induction k generalizing s with
  | zero => simp
  | succ n ih =>
    have h : s ++ List.replicate (n + 1) c = (s ++ [c]) ++ List.replicate n c := by
      simp [List.replicate_succ]
    rw [h, ih (s ++ [c]), gSplit_append_sep, renderParts_append]
    simp [renderParts, prPart_nil]

theorem trimRightSet_cons (cut : List Char) (x : Char) (xs : List Char) :
    trimRightSet cut (x :: xs) =
      match trimRightSet cut xs with
      | [] => if cut.contains x then [] else [x]
      | r => x :: r := rfl

theorem trimRightSet_single_decomp (c : Char) (s : List Char) :
    ∃ k, s = trimRightSet [c] s ++ List.replicate k c := by
  induction s with
  | nil => exact ⟨0, rfl⟩
  | cons x xs ih =>
    obtain ⟨k, hk⟩ := ih
    cases h : trimRightSet [c] xs with
    | nil =>
      have hxs : xs = List.replicate k c := by rwa [h, List.nil_append] at hk
      by_cases hx : x = c
      · refine ⟨k + 1, ?_⟩
        rw [trimRightSet_cons, h]
        simp [hx, hxs, List.replicate_succ]
      · refine ⟨k, ?_⟩
        rw [trimRightSet_cons, h]
        simp [hx, hxs]
    | cons y ys =>
      refine ⟨k, ?_⟩
      rw [trimRightSet_cons, h]
      rw [h] at hk
      simpa using congrArg (x :: ·) hk

theorem trimLeftSet_single_decomp (c : Char) (s : List Char) :
    ∃ k, s = List.replicate k c ++ trimLeftSet [c] s := by
  induction s with
  | nil => exact ⟨0, rfl⟩
  | cons x xs ih =>
    by_cases hx : x = c
    · obtain ⟨k, hk⟩ := ih
      refine ⟨k + 1, ?_⟩
      have hstep : trimLeftSet [c] (x :: xs) = trimLeftSet [c] xs := by
        simp [trimLeftSet, hx]
      rw [hstep, List.replicate_succ, List.cons_append, hx]
      exact congrArg (c :: ·) hk
    · refine ⟨0, ?_⟩
      simp [trimLeftSet, hx]

theorem renderParts_gSplit_trimRight (c : Char) (s : List Char) :
    renderParts (gSplit c (trimRightSet [c] s)) = renderParts (gSplit c s) := by
  obtain ⟨k, hk⟩ := trimRightSet_single_decomp c s
  conv_rhs => rw [hk]
  rw [renderParts_gSplit_append_replicate]

theorem renderParts_gSplit_trimLeft (c : Char) (s : List Char) :
    renderParts (gSplit c (trimLeftSet [c] s)) = renderParts (gSplit c s) := by
  obtain ⟨k, hk⟩ := trimLeftSet_single_decomp c s
  conv_rhs => rw [hk]
  rw [gSplit_replicate_append, renderParts_append, renderParts_replicate_nil,
    List.nil_append]

theorem renderParts_gSplit_goTrim (c : Char) (s : List Char) :
    renderParts (gSplit c (goTrim [c] s)) = renderParts (gSplit c s) := by
  rw [goTrim, renderParts_gSplit_trimLeft, renderParts_gSplit_trimRight]

theorem renderParts_filter_nonempty (l : List (List Char)) :
    renderParts (l.filter (fun seg => !seg.isEmpty)) = renderParts l := by
  induction l with
  | nil => rfl
  | cons p ps ih =>
    cases p with
    | nil => simpa [renderParts, List.filter, prPart_nil] using ih
    | cons y ys =>
      simp only [List.filter, List.isEmpty_cons, Bool.not_false]
      simpa [renderParts] using congrArg (prPart (y :: ys) ++ ·) ih

/-! ## C5: generated tool names -/

/-- C5: for every operation without an explicit operation identifier, the
synthesized tool name is the method lower-cased concatenated with each
non-empty path segment, with path-parameter braces stripped and each
segment's first letter capitalized; in particular `GET /users/\x7buserId\x7d`
yields `getUsersUserId` and `GET /users/\x7bid\x7d` yields `getUsersId`. -/
theorem c5_generated_operation_name :
    (∀ method path op, getString op "operationId" = "" →
      (extractTool path method op).Name = generateOperationID method path) ∧
    (∀ method path, generateOperationID method path = specToolSlug method path) ∧
    generateOperationID "GET" "/users/\x7buserId\x7d" = "getUsersUserId" ∧
    generateOperationID "GET" "/users/\x7bid\x7d" = "getUsersId" := by
  refine ⟨?_, ?_, by decide, by decide⟩
  · intro method path op h
    simp [extractTool, h]
  · intro method path
    simp only [generateOperationID, specToolSlug, renderParts_gSplit_goTrim,
      renderParts_filter_nonempty]

/-- C5 witness: a concrete operation object with no `operationId`, at
`GET /users/\x7bid\x7d`. -/
theorem c5_generated_operation_name_witness :
    getString [] "operationId" = "" ∧
    (extractTool "/users/\x7bid\x7d" "GET" []).Name =
      generateOperationID "GET" "/users/\x7bid\x7d" :=
  ⟨rfl, c5_generated_operation_name.1 "GET" "/users/\x7bid\x7d" [] rfl⟩

/-! ## C6: parameter roles -/

theorem foldl_keepParamStep (xs : List GoVal) (acc : List Parameter) :
    xs.foldl keepParamStep acc = acc ++ xs.filterMap extractParamEntry := by
  induction xs generalizing acc with
  | nil => simp
  | cons x xs ih =>
    cases h : extractParamEntry x with
    | none => simp [List.filterMap_cons, h, ih, keepParamStep]
    | some y => simp [List.filterMap_cons, h, ih, keepParamStep]

theorem extractParamEntry_eq_specKeep (p : GoVal) :
    extractParamEntry p = specKeepParam p := by
  cases p with
  | obj pm =>
    simp only [extractParamEntry, specKeepParam]
    by_cases hp : getString pm "in" = "path"
    · simp [hp]
    · by_cases hq : getString pm "in" = "query"
      · simp [hp, hq]
      · simp [hp, hq]
  | str s => rfl
  | num n => rfl
  | bool b => rfl
  | null => rfl
  | arr xs => rfl

theorem extractTool_params (path method : String) (op : List (String × GoVal)) :
    (extractTool path method op).Parameters =
      (rawParamList op).filterMap extractParamEntry := by
  simp only [extractTool]
  rw [foldl_keepParamStep, List.nil_append]

theorem extractParamEntry_some (p : GoVal) (q : Parameter)
    (h : extractParamEntry p = some q) :
    (q.In = "path" ∨ q.In = "query") ∧ (q.In = "path" → q.Required = true) := by
  cases p with
  | obj pm =>
    simp only [extractParamEntry] at h
    by_cases hcond : getString pm "in" ≠ "path" ∧ getString pm "in" ≠ "query"
    · simp [hcond] at h
    · rw [if_neg hcond] at h
      injection h with h
      subst h
      push_neg at hcond
      by_cases hp : getString pm "in" = "path"
      · simp [hp]
      · simp [hp, hcond hp]
  | str s => exact absurd h (by simp [extractParamEntry])
  | num n => exact absurd h (by simp [extractParamEntry])
  | bool b => exact absurd h (by simp [extractParamEntry])
  | null => exact absurd h (by simp [extractParamEntry])
  | arr xs => exact absurd h (by simp [extractParamEntry])

/-- C6: for every synthesized tool, only parameters declared with role
`path` or `query` are kept (header and cookie parameters are dropped — the
kept list is exactly the spec's keep-rule applied to the declared raw
parameter entries), and every path parameter is marked required regardless
of its declared flag. -/
theorem c6_parameter_roles :
    (∀ path method op,
      (extractTool path method op).Parameters =
        (rawParamList op).filterMap specKeepParam) ∧
    (∀ path method op q, q ∈ (extractTool path method op).Parameters →
      (q.In = "path" ∨ q.In = "query") ∧ (q.In = "path" → q.Required = true)) := by
  constructor
  · intro path method op
    rw [extractTool_params]
    exact List.filterMap_congr (fun p _ => extractParamEntry_eq_specKeep p)
  · intro path method op q hq
    rw [extractTool_params] at hq
    obtain ⟨p, _, hp⟩ := List.mem_filterMap.mp hq
    exact extractParamEntry_some p q hp

/-! ## C4: the 50-tool cap -/

theorem foldl_methodEntryStep (p : String) (methods : List (String × GoVal))
    (acc : List (String × String × GoVal)) :
    methods.foldl (methodEntryStep p) acc = acc ++ innerEntries p methods := by
  induction methods generalizing acc with
  | nil => simp [innerEntries]
  | cons e rest ih =>
    rw [List.foldl_cons, ih]
    have hr : innerEntries p (e :: rest) =
        methodEntryStep p [] e ++ innerEntries p rest := by
      rw [innerEntries, List.foldl_cons, ih]
    rw [hr]
    by_cases hv : isHTTPMethod (strToUpper e.1) = true
    · simp [methodEntryStep, hv]
    · simp [methodEntryStep, hv]

theorem specStep_eq_flatStep (p : String) (st : List APITool × Nat)
    (e : String × GoVal) (hv : isHTTPMethod (strToUpper e.1) = true) :
    specStep p st e = flatStep st (p, strToUpper e.1, e.2) := by
  cases h : goObj e.2 with
  | some op => simp [specStep, flatStep, hv, h]
  | none => simp [specStep, flatStep, hv, h]

theorem foldl_specStep_eq (p : String) (methods : List (String × GoVal))
    (st : List APITool × Nat) :
    methods.foldl (specStep p) st =
      (innerEntries p methods).foldl flatStep st := by
  induction methods generalizing st with
  | nil => simp [innerEntries]
  | cons e rest ih =>
    rw [List.foldl_cons, ih]
    have hr : innerEntries p (e :: rest) =
        methodEntryStep p [] e ++ innerEntries p rest := by
      rw [innerEntries, List.foldl_cons, foldl_methodEntryStep]
    rw [hr, List.foldl_append]
    by_cases hv : isHTTPMethod (strToUpper e.1) = true
    · rw [specStep_eq_flatStep p st e hv]
      simp [methodEntryStep, hv]
    · have he : specStep p st e = st := by simp [specStep, hv]
      simp [methodEntryStep, hv, he]

theorem foldl_specFold_eq (paths : List (String × GoVal))
    (st : List APITool × Nat) :
    paths.foldl specFold st =
      ((paths.map pathItemEntries).flatten).foldl flatStep st := by
  induction paths generalizing st with
  | nil => simp
  | cons pe rest ih =>
    rw [List.foldl_cons, ih, List.map_cons, List.flatten_cons, List.foldl_append]
    cases h : goObj pe.2 with
    | some methods =>
      rw [show specFold st pe = methods.foldl (specStep pe.1) st by
          simp [specFold, h],
        foldl_specStep_eq,
        show pathItemEntries pe = innerEntries pe.1 methods by
          simp [pathItemEntries, h]]
    | none => simp [specFold, pathItemEntries, h, innerEntries]

theorem foldl_flatStep_total (es : List (String × String × GoVal))
    (tools : List APITool) (total : Nat) :
    (es.foldl flatStep (tools, total)).2 = total + es.length := by
  induction es generalizing tools total with
  | nil => simp
  | cons e rest ih =>
    rw [List.foldl_cons]
    cases h : goObj e.2.2 with
    | some op =>
      by_cases hc : tools.length ≥ MaxTools
      · rw [show flatStep (tools, total) e = (tools, total + 1) by
          simp [flatStep, h, hc]]
        rw [ih, List.length_cons]
        omega
      · rw [show flatStep (tools, total) e =
            (tools ++ [extractTool e.1 e.2.1 op], total + 1) by
          simp [flatStep, h, hc]]
        rw [ih, List.length_cons]
        omega
    | none =>
      rw [show flatStep (tools, total) e = (tools, total + 1) by simp [flatStep, h]]
      rw [ih, List.length_cons]
      omega

theorem foldl_flatStep_length (es : List (String × String × GoVal))
    (tools : List APITool) (total : Nat) (hle : tools.length ≤ MaxTools) :
    ((es.foldl flatStep (tools, total)).1).length =
      min (tools.length + es.countP isObjOp) MaxTools := by
  induction es generalizing tools total with
  | nil =>
    simp only [List.foldl_nil, List.countP_nil, Nat.add_zero]
    omega
  | cons e rest ih =>
    rw [List.foldl_cons, List.countP_cons]
    cases h : goObj e.2.2 with
    | some op =>
      have hobj : isObjOp e = true := by simp [isObjOp, h]
      by_cases hc : tools.length ≥ MaxTools
      · rw [show flatStep (tools, total) e = (tools, total + 1) by
          simp [flatStep, h, hc]]
        rw [ih tools (total + 1) hle, hobj]
        omega
      · rw [show flatStep (tools, total) e =
            (tools ++ [extractTool e.1 e.2.1 op], total + 1) by
          simp [flatStep, h, hc]]
        rw [ih _ (total + 1) (by simp; omega), hobj]
        simp
        omega
    | none =>
      have hobj : isObjOp e = false := by simp [isObjOp, h]
      rw [show flatStep (tools, total) e = (tools, total + 1) by simp [flatStep, h]]
      rw [ih tools (total + 1) hle, hobj]
      simp

/-- C4: for every OpenAPI specification at most 50 tools are synthesized
(`extractSpec` returns with a `nil` error either way); for a specification
with 60 valid operations exactly 50 tools are produced and a single warning
is emitted citing the counts 60 and 50. -/
theorem c4_tool_cap (raw : List (String × GoVal)) :
    ∃ ps w, extractSpec raw = Except.ok (ps, w) ∧
      ps.Tools.length ≤ MaxTools ∧
      (countValidOps raw = 60 → (endpointEntries raw).length = 60 →
        ps.Tools.length = 50 ∧ w = some (60, 50)) := by
  cases hpaths : asObj (lookupField raw "paths") with
  | none =>
    have hspec : extractSpec raw =
        Except.ok (⟨specTitle raw, specDescription raw, specServerURL raw, []⟩,
          none) := by
      simp only [extractSpec, hpaths]
    refine ⟨_, _, hspec, by simp, ?_⟩
    intro h60 hlen
    have he : endpointEntries raw = [] := by simp only [endpointEntries, hpaths]
    rw [he] at hlen
    simp at hlen
  | some paths =>
    have hspec : extractSpec raw =
        Except.ok (⟨specTitle raw, specDescription raw, specServerURL raw,
            (paths.foldl specFold ([], 0)).1⟩,
          if (paths.foldl specFold ([], 0)).2 > MaxTools
          then some ((paths.foldl specFold ([], 0)).2, MaxTools) else none) := by
      simp only [extractSpec, hpaths]
    have hfold := foldl_specFold_eq paths ([], 0)
    have hentries : endpointEntries raw = (paths.map pathItemEntries).flatten := by
      simp only [endpointEntries, hpaths]
    have hlen50 :
        ((paths.foldl specFold ([], 0)).1).length =
          min (countValidOps raw) MaxTools := by
      rw [hfold, foldl_flatStep_length _ [] 0 (by simp), countValidOps, hentries]
      simp
    have htotal :
        (paths.foldl specFold ([], 0)).2 = (endpointEntries raw).length := by
      rw [hfold, foldl_flatStep_total, hentries]
      simp
    refine ⟨_, _, hspec, ?_, ?_⟩
    · rw [hlen50]
      omega
    · intro h60 hlen
      have ht : (paths.foldl specFold ([], 0)).2 = 60 := by rw [htotal, hlen]
      constructor
      · rw [hlen50, h60]
        decide
      · rw [ht]
        norm_num [MaxTools]

/-- C4 witness: a concrete specification with 60 `GET` operations on 60
distinct paths yields exactly 50 tools and the warning `(60, 50)`. -/
theorem c4_tool_cap_witness :
    countValidOps [("paths", GoVal.obj ((List.range 60).map (fun i =>
        ("/p" ++ toString i, GoVal.obj [("get", GoVal.obj [])]))))] = 60 ∧
    ∃ ps w,
      extractSpec [("paths", GoVal.obj ((List.range 60).map (fun i =>
        ("/p" ++ toString i, GoVal.obj [("get", GoVal.obj [])]))))] =
          Except.ok (ps, w) ∧
      ps.Tools.length = 50 ∧ w = some (60, 50) := by
  obtain ⟨ps, w, hok, _, himp⟩ :=
    c4_tool_cap [("paths", GoVal.obj ((List.range 60).map (fun i =>
      ("/p" ++ toString i, GoVal.obj [("get", GoVal.obj [])]))))]
  have h60 : countValidOps [("paths", GoVal.obj ((List.range 60).map (fun i =>
      ("/p" ++ toString i, GoVal.obj [("get", GoVal.obj [])]))))] = 60 := by rfl
  have hlen : (endpointEntries [("paths", GoVal.obj ((List.range 60).map (fun i =>
      ("/p" ++ toString i, GoVal.obj [("get", GoVal.obj [])]))))]).length = 60 := by
    rfl
  obtain ⟨hl, hw⟩ := himp h60 hlen
  exact ⟨h60, ps, w, hok, hl, hw⟩

/-- C6 witness: a concrete operation declaring one path parameter `id`
(with no declared `required` flag) and one header parameter that is
dropped. -/
theorem c6_parameter_roles_witness :
    ((⟨"id", "path", "", true, "string"⟩ : Parameter).In = "path" ∨
      (⟨"id", "path", "", true, "string"⟩ : Parameter).In = "query") ∧
    ((⟨"id", "path", "", true, "string"⟩ : Parameter).In = "path" →
      (⟨"id", "path", "", true, "string"⟩ : Parameter).Required = true) :=
  c6_parameter_roles.2 "/users/\x7bid\x7d" "GET"
    [("parameters", GoVal.arr
      [GoVal.obj [("name", GoVal.str "id"), ("in", GoVal.str "path")],
       GoVal.obj [("name", GoVal.str "trace"), ("in", GoVal.str "header")]])]
    ⟨"id", "path", "", true, "string"⟩ (by decide)

/-! ## C1: tool-result message shape (code bug at multi-invocation turns) -/

/-- C1 (evaluating the code at the failing input): for an assistant turn
whose response carries two tool invocations, `processChat`'s block loop
appends the pending assistant message and a single-result synthetic user
message once per invocation — the history gains two user messages with one
`tool_result` each (and the assistant message twice, the first copy
truncated), not one synthetic user message holding both results as the
spec's invariant requires. -/
theorem c1_per_invocation_append :
    (processBlocks (fun _ _ => Except.ok "ok")
        [⟨"user", [mkText "hi"]⟩]
        [mkToolUse "t1" "toolA" [], mkToolUse "t2" "toolB" []]).1 =
      [⟨"user", [mkText "hi"]⟩,
       ⟨"assistant", [mkToolUse "t1" "toolA" []]⟩,
       ⟨"user", [mkToolResult "t1" "ok"]⟩,
       ⟨"assistant", [mkToolUse "t1" "toolA" [], mkToolUse "t2" "toolB" []]⟩,
       ⟨"user", [mkToolResult "t2" "ok"]⟩] ∧
    ((processBlocks (fun _ _ => Except.ok "ok")
        [⟨"user", [mkText "hi"]⟩]
        [mkToolUse "t1" "toolA" [], mkToolUse "t2" "toolB" []]).1.countP
      (fun m => m.role == "user" &&
        m.content.any (fun b => b.ctype == "tool_result")) = 2) ∧
    (processBlocks (fun _ _ => Except.ok "ok")
        [⟨"user", [mkText "hi"]⟩]
        [mkToolUse "t1" "toolA" [], mkToolUse "t2" "toolB" []]).1.length ≠
      ([⟨"user", [mkText "hi"]⟩,
        ⟨"assistant", [mkToolUse "t1" "toolA" [], mkToolUse "t2" "toolB" []]⟩,
        ⟨"user", [mkToolResult "t1" "ok", mkToolResult "t2" "ok"]⟩] :
        List Message).length :=
  ⟨rfl, rfl, by decide⟩

/-! ## C2: the 10-turn budget -/

theorem pbStep_third (exec : String → List (String × GoVal) → Except String String)
    (st : List Message × List ContentBlock × Bool) (b : ContentBlock) :
    (pbStep exec st b).2.2 = (st.2.2 || (b.ctype == "tool_use")) := by
  by_cases h1 : b.ctype = "text"
  · simp [pbStep, h1]
  · by_cases h2 : b.ctype = "tool_use"
    · simp [pbStep, h1, h2]
    · simp [pbStep, h1, h2]

theorem foldl_pbStep_third (exec : String → List (String × GoVal) → Except String String)
    (blocks : List ContentBlock) :
    ∀ st, ((blocks.foldl (pbStep exec) st).2.2) =
      (st.2.2 || blocks.any (fun b => b.ctype == "tool_use")) := by
  induction blocks with
  | nil => simp
  | cons b bs ih =>
    intro st
    rw [List.foldl_cons, ih, pbStep_third, List.any_cons, Bool.or_assoc]

theorem processChatLoop_calls_le
    (provider : List Message → Except String Response)
    (exec : String → List (String × GoVal) → Except String String) :
    ∀ fuel msgs calls,
      (processChatLoop provider exec fuel msgs calls).2.1 ≤ calls + fuel := by
  intro fuel
  induction fuel with
  | zero =>
    intro msgs calls
    simp [processChatLoop]
  | succ n ih =>
    intro msgs calls
    simp only [processChatLoop]
    cases hp : provider msgs with
    | error e => simp
    | ok resp =>
      by_cases hTU : (processBlocks exec msgs resp.Content).2.2
      · simp only [hTU, if_true]
        have := ih (processBlocks exec msgs resp.Content).1 (calls + 1)
        omega
      · simp only [Bool.not_eq_true] at hTU
        simp only [hTU, Bool.false_eq_true, if_false]
        simp

theorem processChatLoop_always
    (provider : List Message → Except String Response)
    (exec : String → List (String × GoVal) → Except String String)
    (H : ∀ h, ∃ r, provider h = Except.ok r ∧
      r.Content.any (fun b => b.ctype == "tool_use") = true) :
    ∀ fuel msgs calls,
      (processChatLoop provider exec fuel msgs calls).2.1 = calls + fuel ∧
      (processChatLoop provider exec fuel msgs calls).2.2 = none := by
  intro fuel
  induction fuel with
  | zero =>
    intro msgs calls
    simp [processChatLoop]
  | succ n ih =>
    intro msgs calls
    obtain ⟨r, hr, hany⟩ := H msgs
    have hTU : (processBlocks exec msgs r.Content).2.2 = true := by
      rw [processBlocks, foldl_pbStep_third]
      simp [hany]
    simp only [processChatLoop, hr, hTU, if_true]
    have h := ih (processBlocks exec msgs r.Content).1 (calls + 1)
    refine ⟨?_, h.2⟩
    rw [h.1]
    omega

/-- C2: for every invocation of the orchestration loop at most 10 provider
calls are made; with a provider whose every reply carries a tool-use
segment, exactly 10 provider calls are made and the loop returns without
error. -/
theorem c2_turn_budget :
    (∀ provider exec msgs,
      (processChat provider exec msgs).2.1 ≤ 10) ∧
    (∀ provider exec msgs,
      (∀ h, ∃ r, provider h = Except.ok r ∧
        r.Content.any (fun b => b.ctype == "tool_use") = true) →
      (processChat provider exec msgs).2.1 = 10 ∧
      (processChat provider exec msgs).2.2 = none) := by
  constructor
  · intro provider exec msgs
    have h := processChatLoop_calls_le provider exec 10 msgs 0
    simpa [processChat] using h
  · intro provider exec msgs H
    have h := processChatLoop_always provider exec H 10 msgs 0
    simpa [processChat] using h

/-- C2 witness: a scripted provider that always returns one tool-use
segment makes exactly 10 calls from an empty history, and the loop returns
without error. -/
theorem c2_turn_budget_witness :
    (processChat (fun _ => Except.ok ⟨"", "message", "assistant",
        [mkToolUse "t1" "toolA" []], "", "tool_use", ⟨0, 0⟩⟩)
      (fun _ _ => Except.ok "ok") []).2.1 = 10 ∧
    (processChat (fun _ => Except.ok ⟨"", "message", "assistant",
        [mkToolUse "t1" "toolA" []], "", "tool_use", ⟨0, 0⟩⟩)
      (fun _ _ => Except.ok "ok") []).2.2 = none :=
  c2_turn_budget.2 _ _ [] (fun _ => ⟨_, rfl, by decide⟩)

/-! ## C10: empty canonical messages emit no wire message -/

theorem gather_no_tools (marshal : List (String × GoVal) → String)
    (blocks : List ContentBlock)
    (h : ∀ b ∈ blocks, b.ctype ≠ "tool_use" ∧ b.ctype ≠ "tool_result") :
    ∀ t tc tid,
      blocks.foldl (gatherStep marshal) (t, tc, tid) =
        (blocks.foldl (fun a b => if b.ctype = "text" then a ++ b.text else a) t,
          tc, tid) := by
  induction blocks with
  | nil => intro t tc tid; rfl
  | cons b bs ih =>
    intro t tc tid
    obtain ⟨hbu, hbr⟩ := h b (List.mem_cons_self b bs)
    have hrest : ∀ b' ∈ bs, b'.ctype ≠ "tool_use" ∧ b'.ctype ≠ "tool_result" :=
      fun b' hb' => h b' (List.mem_cons_of_mem b hb')
    by_cases htext : b.ctype = "text"
    · rw [List.foldl_cons, List.foldl_cons, if_pos htext,
        show gatherStep marshal (t, tc, tid) b = (t ++ b.text, tc, tid) by
          simp [gatherStep, htext]]
      exact ih hrest (t ++ b.text) tc tid
    · rw [List.foldl_cons, List.foldl_cons, if_neg htext,
        show gatherStep marshal (t, tc, tid) b = (t, tc, tid) by
          simp [gatherStep, htext, hbu, hbr]]
      exact ih hrest t tc tid

/-- C10: a canonical message whose accumulated text is empty and which has
no tool-invocation and no tool-result segment emits no wire message, so the
converted message list is strictly shorter than the canonical history. -/
theorem c10_empty_message_skipped :
    (∀ (marshal : List (String × GoVal) → String) (m : Message),
      (∀ b ∈ m.content, b.ctype ≠ "tool_use" ∧ b.ctype ≠ "tool_result") →
      textOfBlocks m.content = "" →
      convertMsg marshal m = none) ∧
    (∀ (marshal : List (String × GoVal) → String) (m : Message)
        (pre post : List Message),
      (∀ b ∈ m.content, b.ctype ≠ "tool_use" ∧ b.ctype ≠ "tool_result") →
      textOfBlocks m.content = "" →
      (convertToOpenAIFormat marshal (pre ++ m :: post)).length <
        (pre ++ m :: post).length) := by
  have hmain : ∀ (marshal : List (String × GoVal) → String) (m : Message),
      (∀ b ∈ m.content, b.ctype ≠ "tool_use" ∧ b.ctype ≠ "tool_result") →
      textOfBlocks m.content = "" →
      convertMsg marshal m = none := by
    intro marshal m h htext
    have hfold := gather_no_tools marshal m.content h "" [] ""
    rw [show (m.content.foldl
        (fun a b => if b.ctype = "text" then a ++ b.text else a) "") =
        textOfBlocks m.content from rfl, htext] at hfold
    simp [convertMsg, hfold]
  refine ⟨hmain, ?_⟩
  intro marshal m pre post h htext
  rw [convertToOpenAIFormat, List.filterMap_append, List.filterMap_cons,
    hmain marshal m h htext]
  have h1 := List.length_filterMap_le (convertMsg marshal) pre
  have h2 := List.length_filterMap_le (convertMsg marshal) post
  simp only [List.length_append, List.length_cons]
  omega

/-- C10 witness: an empty user message is skipped, shortening the wire
list. -/
theorem c10_empty_message_skipped_witness :
    convertMsg (fun _ => "") ⟨"user", []⟩ = none ∧
    (convertToOpenAIFormat (fun _ => "")
        ([] ++ (⟨"user", []⟩ : Message) :: [])).length <
      ([] ++ (⟨"user", []⟩ : Message) :: []).length :=
  ⟨c10_empty_message_skipped.1 (fun _ => "") ⟨"user", []⟩ (by simp) rfl,
   c10_empty_message_skipped.2 (fun _ => "") ⟨"user", []⟩ [] [] (by simp) rfl⟩

/-! ## C8: unparseable tool-call arguments degrade to an empty mapping -/

/-- C8: a `tool_calls` entry whose JSON-string arguments fail to parse is
converted to a `ToolInvocation` with an empty argument mapping, and the
conversion of the whole response still returns without error. -/
theorem c8_malformed_arguments
    (parse : String → Option GoVal) (resp : OAIResponse) (ch : OAIChoice)
    (m : OAIMessage) (tc : OAIToolCall) (fn : OAIFunc) (s : String)
    (hch : resp.choices.head? = some ch)
    (hm : ch.message = some m)
    (htc : tc ∈ m.tool_calls.getD [])
    (hfn : tc.function = some fn)
    (hargs : fn.arguments = some s)
    (hparse : parse s = none) :
    ∃ r, convertFromOpenAIFormat parse resp = Except.ok r ∧
      mkToolUse (tc.id.getD "") (fn.name.getD "") [] ∈ r.Content := by
  refine ⟨_, rfl, ?_⟩
  simp only [convertFromOpenAIFormat, hch, hm]
  apply List.mem_append_right
  refine List.mem_filterMap.mpr ⟨tc, htc, ?_⟩
  simp [convertToolCall, hfn, hargs, hparse]

/-- C8 witness: a concrete response whose single tool call carries a
malformed arguments string. -/
theorem c8_malformed_arguments_witness :
    ∃ r, convertFromOpenAIFormat (fun _ => none)
        ⟨none, none,
          [⟨some ⟨"assistant", none,
            some [⟨some "c1", some "function", some ⟨some "t", some "\x7bbad"⟩⟩],
            none⟩, some "tool_calls"⟩], none⟩ = Except.ok r ∧
      mkToolUse "c1" "t" [] ∈ r.Content :=
  c8_malformed_arguments (fun _ => none) _ _ _
    ⟨some "c1", some "function", some ⟨some "t", some "\x7bbad"⟩⟩
    ⟨some "t", some "\x7bbad"⟩ "\x7bbad" rfl rfl (List.mem_singleton.mpr rfl)
    rfl rfl rfl

/-! ## C3: chat-completion round trip -/

/-- C3: converting a canonical assistant message with one text segment and
one tool invocation through the outbound conversion, echoing it back in
chat-completion response shape, and converting back inbound yields the
original text and the original invocation id, name and arguments.  The
stdlib JSON codec is abstracted by `marshal`/`parse`; the hypothesis states
that decoding the encoded argument map returns the same mapping (argument
values preserved as their JSON-equivalent types). -/
theorem c3_roundtrip
    (marshal : List (String × GoVal) → String) (parse : String → Option GoVal)
    (t id name : String) (args : List (String × GoVal))
    (hcodec : parse (marshal args) = some (GoVal.obj args)) :
    ∃ out,
      convertMsg marshal ⟨"assistant", [mkText t, mkToolUse id name args]⟩ =
        some out ∧
      convertFromOpenAIFormat parse (mockEcho out) =
        Except.ok ⟨"", "message", "assistant",
          (if t = "" then [] else [mkText t]) ++ [mkToolUse id name args],
          "", "tool_use", ⟨0, 0⟩⟩ ∧
      textOfBlocks ((if t = "" then [] else [mkText t]) ++
        [mkToolUse id name args]) = t ∧
      toolUsesOf ((if t = "" then [] else [mkText t]) ++
        [mkToolUse id name args]) = [(id, name, args)] := by
  by_cases ht : t = ""
  · subst ht
    refine ⟨_, rfl, ?_, by simp [textOfBlocks, mkText, mkToolUse],
      by simp [toolUsesOf, mkText, mkToolUse]⟩
    simp [convertFromOpenAIFormat, mockEcho, convertToolCall, hcodec,
      convertMsg, gatherStep, mkText, mkToolUse]
  · have hout : convertMsg marshal
        ⟨"assistant", [mkText t, mkToolUse id name args]⟩ =
        some ⟨"assistant", some t,
          some [⟨some id, some "function",
            some ⟨some name, some (marshal args)⟩⟩], none⟩ := by
      simp [convertMsg, gatherStep, mkText, mkToolUse, ht]
    refine ⟨_, hout, ?_, by simp [textOfBlocks, mkText, mkToolUse, ht],
      by simp [toolUsesOf, mkText, mkToolUse, ht]⟩
    simp [convertFromOpenAIFormat, mockEcho, convertToolCall, hcodec, ht,
      mkText, mkToolUse]

/-- C3 witness: a concrete codec pair and a concrete message
(`text "hello"`, invocation `i1`/`nm` with one string argument). -/
theorem c3_roundtrip_witness :
    ∃ out,
      convertMsg (fun _ => "J")
          ⟨"assistant", [mkText "hello",
            mkToolUse "i1" "nm" [("k", GoVal.str "v")]]⟩ = some out ∧
      convertFromOpenAIFormat (fun _ => some (GoVal.obj [("k", GoVal.str "v")]))
          (mockEcho out) =
        Except.ok ⟨"", "message", "assistant",
          (if ("hello" : String) = "" then [] else [mkText "hello"]) ++
            [mkToolUse "i1" "nm" [("k", GoVal.str "v")]],
          "", "tool_use", ⟨0, 0⟩⟩ ∧
      textOfBlocks ((if ("hello" : String) = "" then [] else [mkText "hello"]) ++
        [mkToolUse "i1" "nm" [("k", GoVal.str "v")]]) = "hello" ∧
      toolUsesOf ((if ("hello" : String) = "" then [] else [mkText "hello"]) ++
        [mkToolUse "i1" "nm" [("k", GoVal.str "v")]]) =
          [("i1", "nm", [("k", GoVal.str "v")])] :=
  c3_roundtrip (fun _ => "J") (fun _ => some (GoVal.obj [("k", GoVal.str "v")]))
    "hello" "i1" "nm" [("k", GoVal.str "v")] rfl

/-! ## C7: non-2xx responses are results, not errors -/

/-- C7: for every API-tool HTTP call whose response has a non-2xx status,
`ExecuteTool` returns a result string naming the status code and the raw
response body, with a `nil` error, instead of a dispatch error. -/
theorem c7_non2xx_result (pretty : String → Option String) (status : Nat)
    (body : String) (h : ¬ (200 ≤ status ∧ status < 300)) :
    formatToolResult pretty status body =
      Except.ok ("API call failed with status " ++ toString status ++ ": " ++
        body) := by
  simp [formatToolResult, h]

/-- C7 witness: a mocked 404 with a JSON error body. -/
theorem c7_non2xx_result_witness :
    formatToolResult (fun _ => none) 404 "\x7b\"error\":\"not found\"\x7d" =
      Except.ok ("API call failed with status " ++ toString 404 ++ ": " ++
        "\x7b\"error\":\"not found\"\x7d") :=
  c7_non2xx_result (fun _ => none) 404 "\x7b\"error\":\"not found\"\x7d"
    (by decide)

/-! ## C9: undeclared arguments of body-less tools are dropped -/

theorem classifyStep_skip (tool : APITool) (pn qn : List String)
    (st : List Char × List (String × GoVal) × List (String × GoVal))
    (arg : String × GoVal)
    (hrb : tool.RequestBody = none)
    (hp : pn.contains arg.1 = false)
    (hq : qn.contains arg.1 = false) :
    classifyStep tool pn qn st arg = st := by
  have hp' : arg.1 ∉ pn := by simpa using hp
  have hq' : arg.1 ∉ qn := by simpa using hq
  simp [classifyStep, hp', hq', hrb]

theorem classify_body_empty (tool : APITool) (pn qn : List String)
    (hrb : tool.RequestBody = none) (params : List (String × GoVal)) :
    ∀ (path : List Char) (q : List (String × GoVal)),
      (params.foldl (classifyStep tool pn qn) (path, q, [])).2.2 = [] := by
  induction params with
  | nil => intro path q; rfl
  | cons a rest ih =>
    intro path q
    rw [List.foldl_cons]
    by_cases h1 : a.1 ∈ pn
    · rw [show classifyStep tool pn qn (path, q, []) a =
          (replaceAll ('{' :: a.1.data ++ ['}']) (goFormatValue a.2).data path,
            q, []) by simp [classifyStep, h1]]
      exact ih _ _
    · by_cases h2 : a.1 ∈ qn
      · rw [show classifyStep tool pn qn (path, q, []) a =
            (path, q ++ [a], []) by simp [classifyStep, h1, h2]]
        exact ih _ _
      · rw [show classifyStep tool pn qn (path, q, []) a = (path, q, []) by
          simp [classifyStep, h1, h2, hrb]]
        exact ih _ _

/-- C9: for a synthesized API tool that declares no request body, an
argument whose name matches neither a declared path parameter nor a
declared query parameter is silently omitted: the built HTTP request is
identical to the one built without that argument, and the request carries
no body. -/
theorem c9_unmatched_argument_dropped (tool : APITool)
    (params1 params2 : List (String × GoVal)) (name : String) (v : GoVal)
    (baseURL authHeader : String)
    (hrb : tool.RequestBody = none)
    (hp : ((paramNameSets tool).1).contains name = false)
    (hq : ((paramNameSets tool).2).contains name = false) :
    buildToolRequest tool (params1 ++ (name, v) :: params2) baseURL authHeader =
      buildToolRequest tool (params1 ++ params2) baseURL authHeader ∧
    (buildToolRequest tool (params1 ++ (name, v) :: params2) baseURL
      authHeader).bodyParams = [] := by
  have hfold : ∀ st,
      (params1 ++ (name, v) :: params2).foldl
        (classifyStep tool (paramNameSets tool).1 (paramNameSets tool).2) st =
      (params1 ++ params2).foldl
        (classifyStep tool (paramNameSets tool).1 (paramNameSets tool).2) st := by
    intro st
    rw [List.foldl_append, List.foldl_cons,
      classifyStep_skip tool _ _ _ (name, v) hrb hp hq, ← List.foldl_append]
  constructor
  · simp only [buildToolRequest, hfold]
  · exact classify_body_empty tool _ _ hrb (params1 ++ (name, v) :: params2)
      tool.Path.data []

/-- C9 witness: a body-less `GET /users/\x7bid\x7d` tool with one declared
path parameter; the undeclared argument `extra` changes nothing and no body
is sent. -/
theorem c9_unmatched_argument_dropped_witness :
    buildToolRequest
        ⟨"getUser", "", "d", "GET", "/users/\x7bid\x7d",
          [⟨"id", "path", "", true, "string"⟩], none⟩
        ([("id", GoVal.str "7")] ++ ("extra", GoVal.str "x") :: [])
        "http://h/" "" =
      buildToolRequest
        ⟨"getUser", "", "d", "GET", "/users/\x7bid\x7d",
          [⟨"id", "path", "", true, "string"⟩], none⟩
        ([("id", GoVal.str "7")] ++ []) "http://h/" "" ∧
    (buildToolRequest
        ⟨"getUser", "", "d", "GET", "/users/\x7bid\x7d",
          [⟨"id", "path", "", true, "string"⟩], none⟩
        ([("id", GoVal.str "7")] ++ ("extra", GoVal.str "x") :: [])
        "http://h/" "").bodyParams = [] :=
  c9_unmatched_argument_dropped
    ⟨"getUser", "", "d", "GET", "/users/\x7bid\x7d",
      [⟨"id", "path", "", true, "string"⟩], none⟩
    [("id", GoVal.str "7")] [] "extra" (GoVal.str "x") "http://h/" ""
    rfl (by decide) (by decide)

end Willknow
